import Mathlib

/-!
# Verification of `src/engineer/pv_kenya.py` (kenya-crop-mask)

A shallow embedding of `PVKenyaEngineer` and the parts of its base class that
`process_single_file` uses, together with theorems settling the specification
claims about label-overlap search, nearest-cell lookup, NaN capping, the class
index, normalization accumulation and autoencoder sampling.

Modelling conventions:
* floating point reflectance values are modelled as `Option ℚ`, with `none`
  standing for NaN (the only NaN behaviour the code relies on is "is this
  entry NaN?", which `Option` captures exactly);
* a raster tile (`xr.DataArray`) is a pair of coordinate vectors plus a pixel
  accessor from (x index, y index) to a `[timesteps][bands]` matrix; `load_tif`
  is an external collaborator (out of scope per the spec), so the embedding
  takes the loaded tile directly and drops `path_to_file` / `start_date` /
  `days_per_timestep`, which are consumed only by `load_tif`;
* the label table (`self.labels`) is a list of rows with `lat`, `lon` and a
  nullable `crop_type`;
* helpers that live in the engineer base class (`base.py`, not under `src/`)
  are modelled from the spec; each such definition's doc comment says so.
-/

namespace PVKenya

/-- One row of the label table: `lat`, `lon` (WGS84 degrees) and a nullable
`crop_type`, as described by the spec's LabelTable data model. -/
structure LabelRow where
  lat : ℚ
  lon : ℚ
  crop_type : Option String
deriving DecidableEq, Repr

/-- A pixel time series before NaN filling: `[timesteps][bands]`, `none` = NaN. -/
abbrev RawArr := List (List (Option ℚ))

/-- A pixel time series after NaN filling: `[timesteps][bands]`. -/
abbrev FilledArr := List (List ℚ)

/-- A loaded raster tile (the `xr.DataArray` returned by `load_tif`): the
longitude coordinate vector `x`, the latitude coordinate vector `y`, and the
pixel time series at each (x index, y index) cell. -/
structure DataArray where
  x : List ℚ
  y : List ℚ
  pixel : ℕ → ℕ → RawArr

/-- Minimum of a coordinate vector (`da.x.min()`); the code never calls it on
an empty vector (numpy would raise), so the empty case is an arbitrary `0`. -/
def listMin : List ℚ → ℚ
  | [] => 0
  | a :: l => l.foldl min a

/-- Maximum of a coordinate vector (`da.x.max()`). -/
def listMax : List ℚ → ℚ
  | [] => 0
  | a :: l => l.foldl max a

/-- The inclusive bounding-box test of `process_single_file` (lines 69–78):
`min_lon ≤ lon ≤ max_lon` and `min_lat ≤ lat ≤ max_lat`, bounds taken from the
raster's coordinate vectors. -/
def in_bbox (da : DataArray) (r : LabelRow) : Bool :=
  decide (r.lon ≤ listMax da.x) && decide (r.lon ≥ listMin da.x) &&
    decide (r.lat ≤ listMax da.y) && decide (r.lat ≥ listMin da.y)

/-- The `overlap` table of `process_single_file` (lines 71–78): the label rows
whose coordinates fall inside the tile's inclusive bounding box, in
label-table order. -/
def overlap_rows (labels : List LabelRow) (da : DataArray) : List LabelRow :=
  labels.filter (in_bbox da)

/-- First-seen deduplication with an accumulator of already-seen elements;
helper for `uniqueFS`. -/
def uniqueAux {α : Type} [DecidableEq α] (seen : List α) : List α → List α
  | [] => []
  | a :: l => if a ∈ seen then uniqueAux seen l else a :: uniqueAux (a :: seen) l

/-- `pandas.Series.unique`: the distinct elements in first-seen order. -/
def uniqueFS {α : Type} [DecidableEq α] (l : List α) : List α :=
  uniqueAux [] l

/-- Python's `enumerate` starting at `i`, paired as (element, index) to match
the comprehension `{crop: idx for idx, crop in enumerate(...)}`. -/
def enumFrom (i : ℕ) : List String → List (String × ℕ)
  | [] => []
  | c :: cs => (c, i) :: enumFrom (i + 1) cs

/-- `PVKenyaEngineer.__init__` (lines 32–36): `unique_classes` is the
first-seen-order deduplication of the `crop_type` column; the null entry is
then dropped (`unique_classes != np.array(None)`) and the remaining classes
are enumerated from 0.  Persisting the mapping to JSON is out of scope. -/
def classes_to_index (labels : List LabelRow) : List (String × ℕ) :=
  enumFrom 0 ((uniqueFS (labels.map (fun r => r.crop_type))).filterMap id)

/-- The class index as the spec words it: the distinct non-null crop types of
the label table, in first-seen order, enumerated from 0.  (Stated from the
spec, to be compared with `classes_to_index`, which is stated from the code.) -/
def classIndexSpec (labels : List LabelRow) : List (String × ℕ) :=
  enumFrom 0 (uniqueFS (labels.filterMap (fun r => r.crop_type)))

/-- Modelled from the spec: `find_nearest` lives in the engineer base class
(`base.py`), which is not under `src/`.  Helper fold: walk the remaining
coordinates with their indices, keeping the current best (value, index) and
replacing it only on a strict improvement in absolute distance, which gives
the first-occurrence tie-break. -/
def fnGo (t : ℚ) : List ℚ → ℕ → ℚ × ℕ → ℚ × ℕ
  | [], _, best => best
  | y :: ys, i, best =>
    fnGo t ys (i + 1) (if |y - t| < |best.1 - t| then (y, i) else best)

/-- Modelled from the spec: `find_nearest` (base class, not under `src/`)
returns the coordinate value closest to the target in absolute difference
together with its integer index, ties broken by first occurrence.  The code
never calls it on an empty vector, so that case is an arbitrary `(0, 0)`. -/
def find_nearest (arr : List ℚ) (t : ℚ) : ℚ × ℕ :=
  match arr with
  | [] => (0, 0)
  | a :: l => fnGo t l 1 (a, 0)

/-- Clamp a (possibly negative) neighbour index into `[0, n-1]`. -/
def clampIdx (n : ℕ) (i : ℤ) : ℕ :=
  min (max i 0).toNat (n - 1)

/-- Modelled from the spec: `get_surrounding_pixels` (base class, not under
`src/`) collects the time series of the 3×3 neighbourhood around the centre
cell; the spec leaves the edge policy open, so out-of-grid indices are clamped
to the grid.  The nine series are packed by concatenation along timesteps. -/
def get_surrounding_pixels (da : DataArray) (mid_lat_idx mid_lon_idx : ℕ) : RawArr :=
  (([-1, 0, 1] : List ℤ).flatMap fun dy =>
    ([-1, 0, 1] : List ℤ).map fun dx =>
      da.pixel (clampIdx da.x.length ((mid_lon_idx : ℤ) + dx))
        (clampIdx da.y.length ((mid_lat_idx : ℤ) + dy))).flatten

/-- A normalized-difference index entry from two band values; NaN (absent)
inputs propagate to a NaN output. -/
def ndEntry (a b : Option ℚ) : Option ℚ :=
  match a, b with
  | some x, some y => some ((x - y) / (x + y))
  | _, _ => none

/-- Modelled from the spec: `calculate_ndvi` (base class, not under `src/`)
computes NDVI from existing reflectance bands under a fixed band-index
convention and appends it as a new channel, identically for labelled and
surrounding arrays.  We fix the convention to bands 3 (NIR) and 2 (red). -/
def calculate_ndvi (arr : RawArr) : RawArr :=
  arr.map fun row => row ++ [ndEntry (row.getD 3 none) (row.getD 2 none)]

/-- Modelled from the spec: `calculate_ndwi` (base class, not under `src/`)
computes NDWI the same way under its own fixed band convention; we fix it to
bands 1 (green) and 3 (NIR). -/
def calculate_ndwi (arr : RawArr) : RawArr :=
  arr.map fun row => row ++ [ndEntry (row.getD 1 none) (row.getD 3 none)]

/-- The fraction of NaN entries of an array (`np.count_nonzero(np.isnan(a)) /
a.size`); on the empty array the code would divide by zero, and `ℚ` division
by zero returns `0`. -/
def nanRatio (arr : RawArr) : ℚ :=
  ((arr.flatten.countP fun e => e.isNone : ℕ) : ℚ) / ((arr.flatten.length : ℕ) : ℚ)

/-- `np.nan_to_num(array, nan=nan)`: replace every NaN entry by `nan`. -/
def nan_to_num (arr : RawArr) (nan : ℚ) : FilledArr :=
  arr.map fun row => row.map fun e => e.getD nan

/-- Modelled from the spec: `maxed_nan_to_num` (base class, not under `src/`)
replaces NaN entries with `nan`, except that when `max_ratio` is given and the
NaN fraction of the array exceeds it, the array is rejected (`none`) rather
than filled. -/
def maxed_nan_to_num (arr : RawArr) (nan : ℚ) (max_ratio : Option ℚ) :
    Option FilledArr :=
  match max_ratio with
  | some r => if nanRatio arr > r then none else some (nan_to_num arr nan)
  | none => some (nan_to_num arr nan)

/-- The running normalization statistics of the spec's NormalizingAccumulator:
a sample count and per-channel mean / M2 (variance) accumulators. -/
structure NormAcc where
  n : ℕ
  mean : List ℚ
  m2 : List ℚ
deriving DecidableEq, Repr

/-- The empty accumulator, before any fold has initialized it. -/
def NormAcc.empty : NormAcc := { n := 0, mean := [], m2 := [] }

/-- Per-channel means of a filled `[timesteps][bands]` array. -/
def channelMeans (arr : FilledArr) : List ℚ :=
  (List.range (arr.headD []).length).map fun f =>
    ((arr.map fun row => row.getD f 0).sum) / ((arr.length : ℕ) : ℚ)

/-- Modelled from the spec: `update_normalizing_values` (base class, not under
`src/`) folds an array's per-channel statistics into a running (count, mean,
M2) accumulator with a numerically stable Welford-style incremental update;
one successful extraction contributes one sample (per the spec, the sample
count goes up by exactly 1 per fold), taken here as the array's per-channel
mean.  The first fold initializes the accumulator. -/
def update_normalizing_values (acc : NormAcc) (arr : FilledArr) : NormAcc :=
  let x := channelMeans arr
  if acc.n = 0 then
    { n := 1, mean := x, m2 := x.map fun _ => 0 }
  else
    let n' := acc.n + 1
    let delta := List.zipWith (fun a b => a - b) x acc.mean
    let mean' := List.zipWith (fun m d => m + d / ((n' : ℕ) : ℚ)) acc.mean delta
    let delta2 := List.zipWith (fun a b => a - b) x mean'
    { n := n'
      mean := mean'
      m2 := List.zipWith (fun m dd => m + dd) acc.m2
        (List.zipWith (fun a b => a * b) delta delta2) }

/-- Modelled from the spec: the call sites in `process_single_file` pass
`update_normalizing_values` a possibly-absent array (the output of
`maxed_nan_to_num`); the base class, where the absent case is handled, is not
under `src/`.  Per the spec, rejection is non-fatal and the accumulators are
mutated by successful extractions only, so an absent array leaves the
accumulator unchanged. -/
def update_normalizing_values_opt (acc : NormAcc) (arr : Option FilledArr) : NormAcc :=
  match arr with
  | none => acc
  | some a => update_normalizing_values acc a

/-- The two shared accumulators of the engineer: `normalizing_dict_interim`
(labelled-pixel stats) and `surrounding_normalizing_dict_interim`
(surrounding-pixel stats). -/
structure EngineerState where
  normalizing_dict_interim : NormAcc
  surrounding_normalizing_dict_interim : NormAcc
deriving DecidableEq, Repr

/-- `PVKenyaDataInstance`: the output record of a successful extraction. -/
structure PVKenyaDataInstance where
  label_lat : ℚ
  label_lon : ℚ
  instance_lat : ℚ
  instance_lon : ℚ
  labelled_array : FilledArr
  crop_label : String
  crop_int : ℕ
  surrounding_array : FilledArr
deriving DecidableEq, Repr

/-- Modelled from the spec: `process_autoencoder` (base class, not under
`src/`) samples `autoencoder_instances_per_label` additional pixel time series
from the tile, applies the same index derivation and NaN capping, and returns
a batch of arrays.  We sample pixels in row-major order; the `normal_array`,
test and normalization flags are threaded through as the call site does (the
spec assigns them no effect on the two shared accumulators, which hold
labelled- and surrounding-pixel statistics). -/
def process_autoencoder (da : DataArray) (normal_array : Option FilledArr)
    (add_ndvi add_ndwi : Bool) (nan_fill : ℚ) (is_test : Bool)
    (calculate_normalizing_dict : Bool) (autoencoder_instances_per_label : ℕ) :
    List FilledArr :=
  (List.range autoencoder_instances_per_label).map fun i =>
    let arr := da.pixel (i % da.x.length) (i / da.x.length)
    let arr := if add_ndvi then calculate_ndvi arr else arr
    let arr := if add_ndwi then calculate_ndwi arr else arr
    (maxed_nan_to_num arr nan_fill none).getD []

/-- The labelled pixel time series after the optional NDVI/NDWI channels
(lines 95–108): the series at the raster cell nearest to the label point,
with `calculate_ndvi` and `calculate_ndwi` applied per the flags. -/
def labelled_np_of (da : DataArray) (add_ndvi add_ndwi : Bool) (row0 : LabelRow) : RawArr :=
  let a0 := da.pixel (find_nearest da.x row0.lon).2 (find_nearest da.y row0.lat).2
  let a1 := if add_ndvi then calculate_ndvi a0 else a0
  if add_ndwi then calculate_ndwi a1 else a1

/-- The surrounding-pixel series after the optional NDVI/NDWI channels
(lines 99–108). -/
def surrounding_np_of (da : DataArray) (add_ndvi add_ndwi : Bool) (row0 : LabelRow) : RawArr :=
  let a0 := get_surrounding_pixels da (find_nearest da.y row0.lat).2 (find_nearest da.x row0.lon).2
  let a1 := if add_ndvi then calculate_ndvi a0 else a0
  if add_ndwi then calculate_ndwi a1 else a1

/-- The body of the non-null-crop branch of `process_single_file` (lines
93–113 and 121–133), in source order: class lookup, nearest-cell lookup for
longitude and latitude, pixel and neighbourhood extraction, optional
NDVI/NDWI, NaN capping (ratio-capped for the labelled array, uncapped for the
surrounding array), and construction of the data instance when the labelled
array survived the gate.  Returns (labelled array, surrounding array, data
instance). -/
def crop_branch (labels : List LabelRow) (da : DataArray)
    (nan_fill max_nan_ratio : ℚ) (add_ndvi add_ndwi : Bool)
    (row0 : LabelRow) (crop_type : String) :
    Option FilledArr × Option FilledArr × Option PVKenyaDataInstance :=
  let crop_int := ((classes_to_index labels).lookup crop_type).getD 0
  let fnLon := find_nearest da.x row0.lon
  let fnLat := find_nearest da.y row0.lat
  let labelled_array := maxed_nan_to_num (labelled_np_of da add_ndvi add_ndwi row0)
    nan_fill (some max_nan_ratio)
  let surrounding_np := maxed_nan_to_num (surrounding_np_of da add_ndvi add_ndwi row0)
    nan_fill none
  let data_instance :=
    match labelled_array with
    | some la =>
      some { label_lat := row0.lat
             label_lon := row0.lon
             instance_lat := fnLat.1
             instance_lon := fnLon.1
             labelled_array := la
             crop_label := crop_type
             crop_int := crop_int
             surrounding_array := surrounding_np.getD [] }
    | none => none
  (labelled_array, surrounding_np, data_instance)

/-- The labelled-extraction branch of `process_single_file` (lines 69–133):
`none` when there is no overlapping label row or the first one's `crop_type`
is null; otherwise the result of `crop_branch` on the first overlapping row. -/
def labelled_step (labels : List LabelRow) (da : DataArray)
    (nan_fill max_nan_ratio : ℚ) (add_ndvi add_ndwi : Bool) :
    Option (Option FilledArr × Option FilledArr × Option PVKenyaDataInstance) :=
  match (overlap_rows labels da).head? with
  | none => none
  | some row0 =>
    match row0.crop_type with
    | none => none
    | some crop_type =>
      some (crop_branch labels da nan_fill max_nan_ratio add_ndvi add_ndwi row0 crop_type)

/-- `PVKenyaEngineer.process_single_file` (lines 46–149): runs the labelled
extraction branch, folds the two interim normalizing accumulators when not in
test mode and normalization is enabled (lines 115–119; this only happens when
the crop branch was reached), optionally samples autoencoder instances from
the same tile with the labelled array as `normal_array` (lines 135–147), and
returns the (data instance, autoencoder batch) pair together with the updated
accumulator state.  `path_to_file`, `start_date` and `days_per_timestep` only
feed the external `load_tif`, so the embedding takes the loaded `da`. -/
def process_single_file (labels : List LabelRow) (da : DataArray)
    (nan_fill : ℚ) (max_nan_ratio : ℚ) (add_ndvi : Bool) (add_ndwi : Bool)
    (calculate_normalizing_dict : Bool) (is_test : Bool)
    (return_autoencoder_instances : Bool) (autoencoder_instances_per_label : ℕ)
    (st : EngineerState) :
    (Option PVKenyaDataInstance × Option (List FilledArr)) × EngineerState :=
  let step := labelled_step labels da nan_fill max_nan_ratio add_ndvi add_ndwi
  let labelled_array : Option FilledArr :=
    match step with
    | none => none
    | some s => s.1
  let data_instance : Option PVKenyaDataInstance :=
    match step with
    | none => none
    | some s => s.2.2
  let st1 : EngineerState :=
    match step with
    | none => st
    | some s =>
      if !is_test && calculate_normalizing_dict then
        { normalizing_dict_interim :=
            update_normalizing_values_opt st.normalizing_dict_interim s.1
          surrounding_normalizing_dict_interim :=
            update_normalizing_values_opt st.surrounding_normalizing_dict_interim s.2.1 }
      else st
  let autoencoder_instances : Option (List FilledArr) :=
    if return_autoencoder_instances then
      some (process_autoencoder da labelled_array add_ndvi add_ndwi nan_fill is_test
        calculate_normalizing_dict autoencoder_instances_per_label)
    else none
  ((data_instance, autoencoder_instances), st1)

/-! ### Concrete scenarios used by counterexamples and witnesses -/

/-- A one-row label table whose single row is labelled `"maize"` at (0, 0). -/
def exLabels : List LabelRow := [⟨0, 0, some "maize"⟩]

/-- A label table whose first row has a null crop type and whose second row is
labelled, both at (0, 0). -/
def exLabelsNullFirst : List LabelRow := [⟨0, 0, none⟩, ⟨0, 0, some "maize"⟩]

/-- A 1×1 tile at (0, 0) with a single NaN-free one-band pixel. -/
def exDa : DataArray := ⟨[0], [0], fun _ _ => [[some 1]]⟩

/-- A 1×1 tile at (0, 0) whose only pixel is entirely NaN. -/
def exDaNaN : DataArray := ⟨[0], [0], fun _ _ => [[none]]⟩

/-- A 1×1 tile at (0, 0) with a NaN-free four-band pixel. -/
def exDa4 : DataArray := ⟨[0], [0], fun _ _ => [[some 1, some 2, some 3, some 4]]⟩

/-- The all-empty accumulator state. -/
def st0 : EngineerState := ⟨NormAcc.empty, NormAcc.empty⟩

/-- The data instance `process_single_file` produces on `exLabels` / `exDa`
with `nan_fill = 0`, `max_nan_ratio = 1` and no derived channels. -/
def exInst : PVKenyaDataInstance :=
  { label_lat := 0, label_lon := 0, instance_lat := 0, instance_lon := 0,
    labelled_array := [[1]], crop_label := "maize", crop_int := 0,
    surrounding_array := [[1], [1], [1], [1], [1], [1], [1], [1], [1]] }

/-! ## Helper lemmas

Projections of `process_single_file` and case analyses of `labelled_step` and
`crop_branch`, shared by the claim theorems. -/

theorem psf_instance_eq (labels : List LabelRow) (da : DataArray) (nf cap : ℚ)
    (v w cnd tst ret : Bool) (napl : ℕ) (st : EngineerState) :
    (process_single_file labels da nf cap v w cnd tst ret napl st).1.1 =
      (match labelled_step labels da nf cap v w with
        | none => none
        | some s => s.2.2) := rfl

theorem psf_state_eq (labels : List LabelRow) (da : DataArray) (nf cap : ℚ)
    (v w cnd tst ret : Bool) (napl : ℕ) (st : EngineerState) :
    (process_single_file labels da nf cap v w cnd tst ret napl st).2 =
      (match labelled_step labels da nf cap v w with
        | none => st
        | some s =>
          if !tst && cnd then
            { normalizing_dict_interim :=
                update_normalizing_values_opt st.normalizing_dict_interim s.1
              surrounding_normalizing_dict_interim :=
                update_normalizing_values_opt st.surrounding_normalizing_dict_interim s.2.1 }
          else st) := rfl

theorem psf_auto_eq (labels : List LabelRow) (da : DataArray) (nf cap : ℚ)
    (v w cnd tst ret : Bool) (napl : ℕ) (st : EngineerState) :
    (process_single_file labels da nf cap v w cnd tst ret napl st).1.2 =
      (if ret then
        some (process_autoencoder da
          (match labelled_step labels da nf cap v w with
            | none => none
            | some s => s.1) v w nf tst cnd napl)
      else none) := rfl

theorem labelled_step_none_of_no_overlap {labels : List LabelRow} {da : DataArray}
    (nf cap : ℚ) (v w : Bool) (h : (overlap_rows labels da).head? = none) :
    labelled_step labels da nf cap v w = none := by
  simp [labelled_step, h]

theorem labelled_step_none_of_null_crop {labels : List LabelRow} {da : DataArray}
    {row0 : LabelRow} (nf cap : ℚ) (v w : Bool)
    (h : (overlap_rows labels da).head? = some row0) (hc : row0.crop_type = none) :
    labelled_step labels da nf cap v w = none := by
  simp [labelled_step, h, hc]

theorem labelled_step_some {labels : List LabelRow} {da : DataArray}
    {row0 : LabelRow} {ct : String} (nf cap : ℚ) (v w : Bool)
    (h : (overlap_rows labels da).head? = some row0) (hc : row0.crop_type = some ct) :
    labelled_step labels da nf cap v w =
      some (crop_branch labels da nf cap v w row0 ct) := by
  simp [labelled_step, h, hc]

theorem labelled_step_inv {labels : List LabelRow} {da : DataArray} {nf cap : ℚ}
    {v w : Bool} {s : Option FilledArr × Option FilledArr × Option PVKenyaDataInstance}
    (h : labelled_step labels da nf cap v w = some s) :
    ∃ row0 ct, (overlap_rows labels da).head? = some row0 ∧
      row0.crop_type = some ct ∧ s = crop_branch labels da nf cap v w row0 ct := by
  unfold labelled_step at h
  split at h
  · exact absurd h (by simp)
  next row0 heq =>
    split at h
    · exact absurd h (by simp)
    next ct hc => exact ⟨row0, ct, heq, hc, (Option.some_injective _ h).symm⟩

theorem crop_branch_fst (labels : List LabelRow) (da : DataArray) (nf cap : ℚ)
    (v w : Bool) (row0 : LabelRow) (ct : String) :
    (crop_branch labels da nf cap v w row0 ct).1 =
      maxed_nan_to_num (labelled_np_of da v w row0) nf (some cap) := rfl

theorem crop_branch_surrounding (labels : List LabelRow) (da : DataArray) (nf cap : ℚ)
    (v w : Bool) (row0 : LabelRow) (ct : String) :
    (crop_branch labels da nf cap v w row0 ct).2.1 =
      some (nan_to_num (surrounding_np_of da v w row0) nf) := rfl

theorem crop_branch_inst_none {labels : List LabelRow} {da : DataArray} {nf cap : ℚ}
    {v w : Bool} {row0 : LabelRow} {ct : String}
    (h : maxed_nan_to_num (labelled_np_of da v w row0) nf (some cap) = none) :
    (crop_branch labels da nf cap v w row0 ct).2.2 = none := by
  unfold crop_branch
  rw [h]

theorem crop_branch_inst_some {labels : List LabelRow} {da : DataArray} {nf cap : ℚ}
    {v w : Bool} {row0 : LabelRow} {ct : String} {la : FilledArr}
    (h : maxed_nan_to_num (labelled_np_of da v w row0) nf (some cap) = some la) :
    (crop_branch labels da nf cap v w row0 ct).2.2 =
      some { label_lat := row0.lat
             label_lon := row0.lon
             instance_lat := (find_nearest da.y row0.lat).1
             instance_lon := (find_nearest da.x row0.lon).1
             labelled_array := la
             crop_label := ct
             crop_int := ((classes_to_index labels).lookup ct).getD 0
             surrounding_array :=
               (maxed_nan_to_num (surrounding_np_of da v w row0) nf none).getD [] } := by
  unfold crop_branch
  rw [h]

theorem crop_branch_inst_isSome (labels : List LabelRow) (da : DataArray) (nf cap : ℚ)
    (v w : Bool) (row0 : LabelRow) (ct : String) :
    ((crop_branch labels da nf cap v w row0 ct).2.2).isSome =
      ((crop_branch labels da nf cap v w row0 ct).1).isSome := by
  cases h : maxed_nan_to_num (labelled_np_of da v w row0) nf (some cap) with
  | none => rw [crop_branch_inst_none h, crop_branch_fst, h]; rfl
  | some la => rw [crop_branch_inst_some h, crop_branch_fst, h]; rfl

/-- One fold always increments the accumulator's sample count by exactly 1. -/
theorem update_normalizing_values_n (acc : NormAcc) (arr : FilledArr) :
    (update_normalizing_values acc arr).n = acc.n + 1 := by
  unfold update_normalizing_values
  by_cases h : acc.n = 0
  · simp [h]
  · simp [h]

theorem maxed_nan_to_num_none_cap (arr : RawArr) (nf : ℚ) :
    maxed_nan_to_num arr nf none = some (nan_to_num arr nf) := rfl

theorem maxed_nan_to_num_accept {arr : RawArr} {cap : ℚ} (nf : ℚ)
    (h : nanRatio arr ≤ cap) :
    maxed_nan_to_num arr nf (some cap) = some (nan_to_num arr nf) := by
  show (if nanRatio arr > cap then none else some (nan_to_num arr nf)) = some (nan_to_num arr nf)
  rw [if_neg (not_lt.mpr h)]

theorem maxed_nan_to_num_reject {arr : RawArr} {cap : ℚ} (nf : ℚ)
    (h : cap < nanRatio arr) :
    maxed_nan_to_num arr nf (some cap) = none := by
  show (if nanRatio arr > cap then none else some (nan_to_num arr nf)) = none
  rw [if_pos h]

theorem enumFrom_length (i : ℕ) (cs : List String) :
    (enumFrom i cs).length = cs.length := by
  induction cs generalizing i with
  | nil => rfl
  | cons c cs ih => simp [enumFrom, ih]

theorem enumFrom_map_fst (i : ℕ) (cs : List String) :
    (enumFrom i cs).map Prod.fst = cs := by
  induction cs generalizing i with
  | nil => rfl
  | cons c cs ih => simp [enumFrom, ih]

theorem enumFrom_map_snd (i : ℕ) (cs : List String) :
    (enumFrom i cs).map Prod.snd = (List.range cs.length).map (fun k => i + k) := by
  induction cs generalizing i with
  | nil => rfl
  | cons c cs ih =>
    have hf : ((fun k => i + k) ∘ Nat.succ) = fun k => i + 1 + k := by
      funext k
      simp only [Function.comp]
      omega
    simp only [enumFrom, List.map_cons, ih, List.length_cons, List.range_succ_eq_map,
      List.map_map, hf]
    simp

theorem lookup_isSome_of_mem_fst {l : List (String × ℕ)} {c : String}
    (h : c ∈ l.map Prod.fst) : (l.lookup c).isSome = true := by
  induction l with
  | nil => simp at h
  | cons p l ih =>
    obtain ⟨k, b⟩ := p
    rw [List.map_cons] at h
    by_cases hc : c = k
    · subst hc
      simp [List.lookup]
    · have hm : c ∈ l.map Prod.fst := by
        rcases List.mem_cons.mp h with h1 | h1
        · exact absurd h1 hc
        · exact h1
      have hbeq : (c == k) = false := beq_eq_false_iff_ne.mpr hc
      simp [List.lookup, hbeq, ih hm]

theorem mem_filterMap_id {α : Type} {b : α} {l : List (Option α)} :
    b ∈ l.filterMap id ↔ some b ∈ l := by
  simp [List.mem_filterMap]

theorem mem_uniqueAux {α : Type} [DecidableEq α] {a : α} :
    ∀ {l seen : List α}, a ∈ l → a ∉ seen → a ∈ uniqueAux seen l := by
  intro l
  induction l with
  | nil => intro seen h _; simp at h
  | cons b l ih =>
    intro seen h hns
    rcases List.mem_cons.mp h with rfl | hmem
    · by_cases hb : a ∈ seen
      · exact absurd hb hns
      · simp [uniqueAux, hb]
    · by_cases hb : b ∈ seen
      · simpa [uniqueAux, hb] using ih hmem hns
      · simp only [uniqueAux, if_neg hb]
        by_cases hab : a = b
        · subst hab; exact List.mem_cons_self a _
        · refine List.mem_cons_of_mem _ (ih hmem ?_)
          intro hmem2
          rcases List.mem_cons.mp hmem2 with h1 | h1
          · exact hab h1
          · exact hns h1

theorem filterMap_id_uniqueAux {α : Type} [DecidableEq α] :
    ∀ (l seen : List (Option α)),
      (uniqueAux seen l).filterMap id =
        uniqueAux (seen.filterMap id) (l.filterMap id) := by
  intro l
  induction l with
  | nil => intro seen; rfl
  | cons a l ih =>
    intro seen
    cases a with
    | none =>
      by_cases h : (none : Option α) ∈ seen
      · simp only [uniqueAux, if_pos h, List.filterMap_cons, id_eq, ih]
      · simp only [uniqueAux, if_neg h, List.filterMap_cons, id_eq, ih]
    | some b =>
      by_cases h : (some b) ∈ seen
      · have hb : b ∈ seen.filterMap id := mem_filterMap_id.mpr h
        simp only [uniqueAux, if_pos h, List.filterMap_cons, id_eq, ih, if_pos hb]
      · have hb : b ∉ seen.filterMap id := fun hx => h (mem_filterMap_id.mp hx)
        simp only [uniqueAux, if_neg h, List.filterMap_cons, id_eq, ih, if_neg hb]

/-- All pixel series used by a claim scenario: at least 4 bands per timestep
and no NaN entries ("no missing reflectance values"). -/
def Valid4 (m : RawArr) : Prop :=
  ∀ row ∈ m, 4 ≤ row.length ∧ ∀ e ∈ row, e.isSome = true

instance (m : RawArr) : Decidable (Valid4 m) := by
  unfold Valid4; infer_instance

theorem getD_isSome {row : List (Option ℚ)} {k : ℕ} (hk : k < row.length)
    (h : ∀ e ∈ row, e.isSome = true) : (row.getD k none).isSome = true := by
  induction row generalizing k with
  | nil => simp at hk
  | cons e row ih =>
    cases k with
    | zero => simpa using h e (List.mem_cons_self e row)
    | succ k =>
      simp only [List.getD_cons_succ]
      exact ih (by simpa using hk) (fun x hx => h x (List.mem_cons_of_mem _ hx))

theorem ndEntry_isSome {a b : Option ℚ} (ha : a.isSome = true) (hb : b.isSome = true) :
    (ndEntry a b).isSome = true := by
  cases a with
  | none => simp at ha
  | some x =>
    cases b with
    | none => simp at hb
    | some y => rfl

theorem valid4_calculate_ndvi {m : RawArr} (h : Valid4 m) : Valid4 (calculate_ndvi m) := by
  intro row hrow
  rcases List.mem_map.mp hrow with ⟨r, hr, rfl⟩
  obtain ⟨hlen, hsome⟩ := h r hr
  refine ⟨by simp; omega, ?_⟩
  intro e he
  rcases List.mem_append.mp he with h1 | h1
  · exact hsome e h1
  · rw [List.mem_singleton.mp h1]
    exact ndEntry_isSome (getD_isSome (by omega) hsome) (getD_isSome (by omega) hsome)

theorem valid4_calculate_ndwi {m : RawArr} (h : Valid4 m) : Valid4 (calculate_ndwi m) := by
  intro row hrow
  rcases List.mem_map.mp hrow with ⟨r, hr, rfl⟩
  obtain ⟨hlen, hsome⟩ := h r hr
  refine ⟨by simp; omega, ?_⟩
  intro e he
  rcases List.mem_append.mp he with h1 | h1
  · exact hsome e h1
  · rw [List.mem_singleton.mp h1]
    exact ndEntry_isSome (getD_isSome (by omega) hsome) (getD_isSome (by omega) hsome)

theorem nanRatio_eq_zero {m : RawArr} (h : ∀ row ∈ m, ∀ e ∈ row, e.isSome = true) :
    nanRatio m = 0 := by
  have hc : (m.flatten.countP fun e => e.isNone) = 0 := by
    rw [List.countP_eq_zero]
    intro e he
    rcases List.mem_flatten.mp he with ⟨row, hrow, hey⟩
    have he2 := h row hrow e hey
    cases e with
    | none => simp at he2
    | some x => simp
  rw [nanRatio, hc]
  simp

theorem maxed_accept_of_noNaN {m : RawArr} {cap : ℚ} (nf : ℚ)
    (h : ∀ row ∈ m, ∀ e ∈ row, e.isSome = true) (hcap : 0 ≤ cap) :
    maxed_nan_to_num m nf (some cap) = some (nan_to_num m nf) :=
  maxed_nan_to_num_accept nf (by rw [nanRatio_eq_zero h]; exact hcap)

theorem fnGo_spec (t : ℚ) (ys : List ℚ) : ∀ (i : ℕ) (bv : ℚ) (bi : ℕ),
    |(fnGo t ys i (bv, bi)).1 - t| ≤ |bv - t| ∧
    (∀ k (hk : k < ys.length), |(fnGo t ys i (bv, bi)).1 - t| ≤ |ys.get ⟨k, hk⟩ - t|) ∧
    (fnGo t ys i (bv, bi) = (bv, bi) ∨
      ∃ k, ∃ hk : k < ys.length,
        (fnGo t ys i (bv, bi)).1 = ys.get ⟨k, hk⟩ ∧
        (fnGo t ys i (bv, bi)).2 = i + k ∧
        |(fnGo t ys i (bv, bi)).1 - t| < |bv - t| ∧
        ∀ j (hj : j < ys.length), j < k →
          |(fnGo t ys i (bv, bi)).1 - t| < |ys.get ⟨j, hj⟩ - t|) := by
  induction ys with
  | nil =>
    intro i bv bi
    refine ⟨le_refl _, ?_, Or.inl rfl⟩
    intro k hk
    exact absurd hk (Nat.not_lt_zero k)
  | cons y ys ih =>
    intro i bv bi
    by_cases hlt : |y - t| < |bv - t|
    · have hstep : fnGo t (y :: ys) i (bv, bi) = fnGo t ys (i + 1) (y, i) := by
        simp [fnGo, hlt]
      obtain ⟨h1, h2, h3⟩ := ih (i + 1) y i
      rw [hstep]
      refine ⟨le_of_lt (lt_of_le_of_lt h1 hlt), ?_, ?_⟩
      · intro k hk
        cases k with
        | zero => simpa using h1
        | succ k => simpa using h2 k (by simpa using hk)
      · rcases h3 with heq | ⟨k, hk, hg, hi2, hb, hstrict⟩
        · refine Or.inr ⟨0, by simp, ?_, ?_, ?_, ?_⟩
          · rw [heq]; simp
          · rw [heq]; simp
          · rw [heq]; exact hlt
          · intro j hj hj0
            exact absurd hj0 (Nat.not_lt_zero j)
        · refine Or.inr ⟨k + 1, by simpa using hk, ?_, ?_, ?_, ?_⟩
          · simpa using hg
          · rw [hi2]; omega
          · exact lt_trans hb hlt
          · intro j hj hjk
            cases j with
            | zero => simpa using hb
            | succ j => simpa using hstrict j (by simpa using hj) (by omega)
    · have hstep : fnGo t (y :: ys) i (bv, bi) = fnGo t ys (i + 1) (bv, bi) := by
        simp [fnGo, hlt]
      obtain ⟨h1, h2, h3⟩ := ih (i + 1) bv bi
      rw [hstep]
      have hble : |bv - t| ≤ |y - t| := not_lt.mp hlt
      refine ⟨h1, ?_, ?_⟩
      · intro k hk
        cases k with
        | zero => simpa using le_trans h1 hble
        | succ k => simpa using h2 k (by simpa using hk)
      · rcases h3 with heq | ⟨k, hk, hg, hi2, hb, hstrict⟩
        · exact Or.inl heq
        · refine Or.inr ⟨k + 1, by simpa using hk, ?_, ?_, ?_, ?_⟩
          · simpa using hg
          · rw [hi2]; omega
          · exact hb
          · intro j hj hjk
            cases j with
            | zero => simpa using lt_of_lt_of_le hb hble
            | succ j => simpa using hstrict j (by simpa using hj) (by omega)

/-- Full specification of `find_nearest` on a nonempty coordinate vector:
the result is the element at some in-range index `k`, its absolute distance
to the target is minimal over the vector, and every strictly earlier index
has strictly larger distance (first-occurrence tie-break). -/
theorem find_nearest_spec (arr : List ℚ) (t : ℚ) (hne : arr ≠ []) :
    ∃ k, ∃ hk : k < arr.length,
      find_nearest arr t = (arr.get ⟨k, hk⟩, k) ∧
      (∀ j (hj : j < arr.length),
        |arr.get ⟨k, hk⟩ - t| ≤ |arr.get ⟨j, hj⟩ - t|) ∧
      (∀ j (hj : j < arr.length), j < k →
        |arr.get ⟨k, hk⟩ - t| < |arr.get ⟨j, hj⟩ - t|) := by
  cases arr with
  | nil => exact absurd rfl hne
  | cons a l =>
    have hfn : find_nearest (a :: l) t = fnGo t l 1 (a, 0) := rfl
    obtain ⟨h1, h2, h3⟩ := fnGo_spec t l 1 a 0
    rcases h3 with heq | ⟨k, hk, hg, hi2, hb, hstrict⟩
    · refine ⟨0, by simp, ?_, ?_, ?_⟩
      · rw [hfn, heq]; rfl
      · intro j hj
        cases j with
        | zero => exact le_refl _
        | succ j =>
          have hx := h2 j (by simpa using hj)
          rw [heq] at hx
          simpa using hx
      · intro j hj hj0
        exact absurd hj0 (Nat.not_lt_zero j)
    · have hk1 : k + 1 < (a :: l).length := by simpa using hk
      have hget : (a :: l).get ⟨k + 1, hk1⟩ = l.get ⟨k, hk⟩ := by simp
      refine ⟨k + 1, hk1, ?_, ?_, ?_⟩
      · rw [hfn, hget]
        refine Prod.ext_iff.mpr ⟨hg, ?_⟩
        rw [hi2]; omega
      · intro j hj
        rw [hget, ← hg]
        cases j with
        | zero => simpa using le_of_lt hb
        | succ j => simpa using h2 j (by simpa using hj)
      · intro j hj hjk
        rw [hget, ← hg]
        cases j with
        | zero => simpa using hb
        | succ j => simpa using hstrict j (by simpa using hj) (by omega)

/-! ## Claim theorems -/

/-- C3: `maxed_nan_to_num(array, nan_fill, max_nan_ratio)` replaces every NaN
entry with `nan_fill`, except that when `max_nan_ratio` is given and the NaN
fraction exceeds it the result is rejected (`none`); on the 3-element array
`[1, NaN, 3]` it rejects with `max_nan_ratio = 0.3` and returns `[1, 0, 3]`
with `nan_fill = 0`, `max_nan_ratio = 0.5`. -/
theorem C3_maxed_nan_to_num :
    (∀ (arr : RawArr) (nf cap : ℚ), nanRatio arr ≤ cap →
      maxed_nan_to_num arr nf (some cap) = some (nan_to_num arr nf)) ∧
    (∀ (arr : RawArr) (nf cap : ℚ), cap < nanRatio arr →
      maxed_nan_to_num arr nf (some cap) = none) ∧
    (∀ (arr : RawArr) (nf : ℚ), maxed_nan_to_num arr nf none = some (nan_to_num arr nf)) ∧
    maxed_nan_to_num [[some 1, none, some 3]] 0 (some 0.3) = none ∧
    maxed_nan_to_num [[some 1, none, some 3]] 0 (some 0.5) = some [[1, 0, 3]] :=
  ⟨fun _ nf _ h => maxed_nan_to_num_accept nf h,
   fun _ nf _ h => maxed_nan_to_num_reject nf h,
   fun arr nf => maxed_nan_to_num_none_cap arr nf,
   by with_unfolding_all decide,
   by with_unfolding_all decide⟩

/-- Witness for C3: the acceptance branch applied at the spec's concrete
example with `max_nan_ratio = 0.5`. -/
theorem C3_maxed_nan_to_num_witness :
    maxed_nan_to_num [[some 1, none, some 3]] 0 (some 0.5) =
      some (nan_to_num [[some 1, none, some 3]] 0) :=
  C3_maxed_nan_to_num.1 [[some 1, none, some 3]] 0 0.5 (by with_unfolding_all decide)

/-- C4: the class index maps exactly the distinct non-null crop types of the
label table, in first-seen order, to contiguous ids starting at 0; labels
`["maize", "tea", "maize"]` yield `{"maize": 0, "tea": 1}`.  The first
conjunct is the refinement against the spec-worded `classIndexSpec`. -/
theorem C4_class_index :
    (∀ labels : List LabelRow, classes_to_index labels = classIndexSpec labels) ∧
    (∀ labels : List LabelRow,
      (classes_to_index labels).map Prod.fst =
        uniqueFS (labels.filterMap (fun r => r.crop_type))) ∧
    (∀ labels : List LabelRow,
      (classes_to_index labels).map Prod.snd =
        List.range (classes_to_index labels).length) ∧
    classes_to_index [⟨0, 0, some "maize"⟩, ⟨0, 0, some "tea"⟩, ⟨0, 0, some "maize"⟩] =
      [("maize", 0), ("tea", 1)] := by
  have key : ∀ labels : List LabelRow,
      (uniqueFS (labels.map fun r => r.crop_type)).filterMap id =
        uniqueFS (labels.filterMap fun r => r.crop_type) := by
    intro labels
    rw [uniqueFS, uniqueFS, filterMap_id_uniqueAux, List.filterMap_map]
    simp [Function.comp]
  refine ⟨?_, ?_, ?_, by with_unfolding_all decide⟩
  · intro labels
    rw [classes_to_index, classIndexSpec, key]
  · intro labels
    rw [classes_to_index, enumFrom_map_fst, key]
  · intro labels
    rw [classes_to_index, enumFrom_map_snd, enumFrom_length]
    simp

/-- C5: `find_nearest` returns the coordinate value minimizing the absolute
difference to the target together with its integer index, ties broken by
first occurrence; on `[10.0, 10.5, 11.0]` with target `10.3` it returns
`(10.5, 1)`. -/
theorem C5_find_nearest_minimizes :
    (∀ (arr : List ℚ) (t : ℚ), arr ≠ [] →
      ∃ k, ∃ hk : k < arr.length,
        find_nearest arr t = (arr.get ⟨k, hk⟩, k) ∧
        (∀ j (hj : j < arr.length),
          |arr.get ⟨k, hk⟩ - t| ≤ |arr.get ⟨j, hj⟩ - t|) ∧
        (∀ j (hj : j < arr.length), j < k →
          |arr.get ⟨k, hk⟩ - t| < |arr.get ⟨j, hj⟩ - t|)) ∧
    find_nearest [10, 10.5, 11] 10.3 = (10.5, 1) :=
  ⟨find_nearest_spec, by with_unfolding_all decide⟩

/-- Witness for C5: the general minimality statement applied to the spec's
concrete vector `[10, 10.5, 11]` and target `10.3`. -/
theorem C5_find_nearest_minimizes_witness :
    ∃ k, ∃ hk : k < ([10, 10.5, 11] : List ℚ).length,
      find_nearest [10, 10.5, 11] 10.3 = (([10, 10.5, 11] : List ℚ).get ⟨k, hk⟩, k) ∧
      (∀ j (hj : j < ([10, 10.5, 11] : List ℚ).length),
        |([10, 10.5, 11] : List ℚ).get ⟨k, hk⟩ - 10.3| ≤
          |([10, 10.5, 11] : List ℚ).get ⟨j, hj⟩ - 10.3|) ∧
      (∀ j (hj : j < ([10, 10.5, 11] : List ℚ).length), j < k →
        |([10, 10.5, 11] : List ℚ).get ⟨k, hk⟩ - 10.3| <
          |([10, 10.5, 11] : List ℚ).get ⟨j, hj⟩ - 10.3|) :=
  C5_find_nearest_minimizes.1 [10, 10.5, 11] 10.3 (by simp)

/-- C10: the class-index lookup performed during extraction is total: whenever
the first overlapping row's `crop_type` is non-null, that crop type is a key
of `classes_to_index`, because the index was built from the distinct non-null
crop types of the same label table. -/
theorem C10_class_lookup_total :
    ∀ (labels : List LabelRow) (da : DataArray) (r0 : LabelRow) (c : String),
      (overlap_rows labels da).head? = some r0 →
      r0.crop_type = some c →
      ((classes_to_index labels).lookup c).isSome = true := by
  intro labels da r0 c hh hc
  have hmem : r0 ∈ overlap_rows labels da := by
    cases hov : overlap_rows labels da with
    | nil => rw [hov] at hh; simp at hh
    | cons a l =>
      rw [hov] at hh
      simp only [List.head?_cons, Option.some_inj] at hh
      rw [← hh]
      exact List.mem_cons_self a l
  have hlab : r0 ∈ labels := List.mem_of_mem_filter hmem
  have hmap : some c ∈ labels.map (fun r => r.crop_type) := by
    rw [← hc]
    exact List.mem_map_of_mem _ hlab
  have huniq : some c ∈ uniqueFS (labels.map fun r => r.crop_type) :=
    mem_uniqueAux hmap (List.not_mem_nil _)
  have hfm : c ∈ (uniqueFS (labels.map fun r => r.crop_type)).filterMap id :=
    mem_filterMap_id.mpr huniq
  have hfst : c ∈ (classes_to_index labels).map Prod.fst := by
    rw [classes_to_index, enumFrom_map_fst]
    exact hfm
  exact lookup_isSome_of_mem_fst hfst

/-- Witness for C10: the lookup is defined on the concrete one-row scenario. -/
theorem C10_class_lookup_total_witness :
    ((classes_to_index exLabels).lookup "maize").isSome = true :=
  C10_class_lookup_total exLabels exDa ⟨0, 0, some "maize"⟩ "maize"
    (by with_unfolding_all decide) rfl

/-- C7: the surrounding array is always NaN-filled and never rejected by the
quality gate: `maxed_nan_to_num` is applied to it with no ratio cap
(`max_ratio = None`) regardless of the `max_nan_ratio` passed for the labelled
array, and an uncapped call always returns the filled array. -/
theorem C7_surrounding_never_rejected :
    (∀ (arr : RawArr) (nf : ℚ),
      maxed_nan_to_num arr nf none = some (nan_to_num arr nf)) ∧
    (∀ (labels : List LabelRow) (da : DataArray) (nf cap : ℚ) (v w : Bool)
      (s : Option FilledArr × Option FilledArr × Option PVKenyaDataInstance),
      labelled_step labels da nf cap v w = some s →
      ∃ row0, (overlap_rows labels da).head? = some row0 ∧
        s.2.1 = some (nan_to_num (surrounding_np_of da v w row0) nf)) := by
  refine ⟨fun arr nf => maxed_nan_to_num_none_cap arr nf, ?_⟩
  intro labels da nf cap v w s hs
  obtain ⟨row0, ct, h1, _h2, rfl⟩ := labelled_step_inv hs
  exact ⟨row0, h1, crop_branch_surrounding labels da nf cap v w row0 ct⟩

/-- Witness for C7: on the concrete one-pixel scenario the surrounding slot of
the labelled step holds the filled surrounding array. -/
theorem C7_surrounding_never_rejected_witness :
    ∃ row0, (overlap_rows exLabels exDa).head? = some row0 ∧
      some [[(1 : ℚ)], [1], [1], [1], [1], [1], [1], [1], [1]] =
        some (nan_to_num (surrounding_np_of exDa false false row0) 0) :=
  C7_surrounding_never_rejected.2 exLabels exDa 0 1 false false
    (some [[1]], some [[(1 : ℚ)], [1], [1], [1], [1], [1], [1], [1], [1]],
      some { label_lat := 0, label_lon := 0, instance_lat := 0, instance_lon := 0,
             labelled_array := [[1]], crop_label := "maize", crop_int := 0,
             surrounding_array := [[1], [1], [1], [1], [1], [1], [1], [1], [1]] })
    (by with_unfolding_all decide)

/-- C8: autoencoder sampling runs independently of whether a labelled instance
was produced: with `return_autoencoder_instances` true the second component is
the result of `process_autoencoder` (even when the labelled result is `None`,
as the concrete empty-table scenario shows), and with the flag false the
second component is `None`. -/
theorem C8_autoencoder_independence :
    (∀ (labels : List LabelRow) (da : DataArray) (nf cap : ℚ)
      (v w cnd tst : Bool) (napl : ℕ) (st : EngineerState),
      (process_single_file labels da nf cap v w cnd tst true napl st).1.2 =
        some (process_autoencoder da
          (match labelled_step labels da nf cap v w with
            | none => none
            | some s => s.1) v w nf tst cnd napl) ∧
      (process_single_file labels da nf cap v w cnd tst false napl st).1.2 = none) ∧
    ((process_single_file [] exDa 0 1 false false false false true 2 st0).1.1 = none ∧
      ((process_single_file [] exDa 0 1 false false false false true 2 st0).1.2).isSome = true) :=
  ⟨fun _ _ _ _ _ _ _ _ _ _ => ⟨rfl, rfl⟩, by with_unfolding_all decide⟩

/-- C1 fails on the code at two concrete inputs: (a) a table whose first
in-box row has null `crop_type` and whose second in-box row is labelled
produces no instance even though the overlap contains a row with non-null
`crop_type`; (b) with an all-NaN pixel and `max_nan_ratio = 0.3`, a single
labelled in-box row also produces no instance although the claim's condition
holds. -/
theorem C1_counterexample :
    ((process_single_file exLabelsNullFirst exDa 0 1 false false false false false 0 st0).1.1
        = none ∧
      (overlap_rows exLabelsNullFirst exDa).any (fun r => r.crop_type.isSome) = true) ∧
    ((process_single_file exLabels exDaNaN 0 (3/10) false false false false false 0 st0).1.1
        = none ∧
      (overlap_rows exLabels exDaNaN).any (fun r => r.crop_type.isSome) = true) := by
  with_unfolding_all decide

/-- C1 (amended): a labelled DataInstance is produced iff the overlap is
nonempty, its first row (in label-table order) has non-null `crop_type`, and
the labelled array passes the NaN-ratio quality gate. -/
theorem C1_label_selection_amended :
    ∀ (labels : List LabelRow) (da : DataArray) (nf cap : ℚ)
      (v w cnd tst ret : Bool) (napl : ℕ) (st : EngineerState),
      (((process_single_file labels da nf cap v w cnd tst ret napl st).1.1).isSome = true ↔
        ∃ s, labelled_step labels da nf cap v w = some s ∧ s.1.isSome = true) ∧
      ((∃ s, labelled_step labels da nf cap v w = some s) ↔
        ∃ r0, (overlap_rows labels da).head? = some r0 ∧ r0.crop_type.isSome = true) := by
  intro labels da nf cap v w cnd tst ret napl st
  constructor
  · rw [psf_instance_eq]
    cases hstep : labelled_step labels da nf cap v w with
    | none => simp
    | some s =>
      obtain ⟨r0, ct, _h1, _h2, rfl⟩ := labelled_step_inv hstep
      rw [crop_branch_inst_isSome]
      constructor
      · intro h
        exact ⟨_, rfl, h⟩
      · rintro ⟨s2, hs2, h⟩
        cases Option.some_injective _ hs2
        exact h
  · constructor
    · rintro ⟨s, hs⟩
      obtain ⟨r0, ct, h1, h2, _⟩ := labelled_step_inv hs
      exact ⟨r0, h1, by rw [h2]; rfl⟩
    · rintro ⟨r0, h1, h2⟩
      cases hct : r0.crop_type with
      | none => rw [hct] at h2; simp at h2
      | some ct => exact ⟨_, labelled_step_some nf cap v w h1 hct⟩

/-- Witness for C1 (amended): on the concrete labelled scenario the labelled
step does fire. -/
theorem C1_label_selection_amended_witness :
    ∃ s, labelled_step exLabels exDa 0 1 false false = some s :=
  ((C1_label_selection_amended exLabels exDa 0 1 false false false false false 0 st0).2).mpr
    ⟨⟨0, 0, some "maize"⟩, by with_unfolding_all decide, rfl⟩

/-- C2 fails on the code at a concrete input: with `is_test = false` and
`calculate_normalizing_dict = true`, an all-NaN pixel makes the NaN-ratio gate
reject the labelled instance (the labelled array and the data instance are
both absent), yet the call still mutates the accumulator state: the
surrounding accumulator is folded. -/
theorem C2_counterexample :
    (process_single_file exLabels exDaNaN 0 (1/2) false false true false false 0 st0).1.1
        = none ∧
    labelled_step exLabels exDaNaN 0 (1/2) false false =
      some (none, some [[(0 : ℚ)], [0], [0], [0], [0], [0], [0], [0], [0]], none) ∧
    (process_single_file exLabels exDaNaN 0 (1/2) false false true false false 0 st0).2
        ≠ st0 := by
  with_unfolding_all decide

/-- C2 (amended): the two accumulators are unchanged for every call with
`is_test` true or `calculate_normalizing_dict` false, and for every call with
no overlapping row or a null first crop type; when the labelled array is
rejected by the NaN-ratio gate with normalization enabled in non-test mode,
the labelled accumulator is unchanged but the surrounding accumulator is
still folded with the (always present) surrounding array. -/
theorem C2_accumulator_frame_amended :
    ∀ (labels : List LabelRow) (da : DataArray) (nf cap : ℚ)
      (v w cnd tst ret : Bool) (napl : ℕ) (st : EngineerState),
      ((tst = true ∨ cnd = false) →
        (process_single_file labels da nf cap v w cnd tst ret napl st).2 = st) ∧
      (labelled_step labels da nf cap v w = none →
        (process_single_file labels da nf cap v w cnd tst ret napl st).2 = st) ∧
      (∀ s, labelled_step labels da nf cap v w = some s → s.1 = none →
        ((process_single_file labels da nf cap v w cnd tst ret napl st).2).normalizing_dict_interim
          = st.normalizing_dict_interim) ∧
      (∀ s, labelled_step labels da nf cap v w = some s → tst = false → cnd = true →
        ((process_single_file labels da nf cap v w cnd tst ret napl st).2).surrounding_normalizing_dict_interim
          = update_normalizing_values_opt st.surrounding_normalizing_dict_interim s.2.1) := by
  intro labels da nf cap v w cnd tst ret napl st
  refine ⟨?_, ?_, ?_, ?_⟩
  · intro h
    rw [psf_state_eq]
    cases hstep : labelled_step labels da nf cap v w with
    | none => rfl
    | some s =>
      have hcond : (!tst && cnd) = false := by
        rcases h with h | h <;> simp [h]
      rw [hcond]
      simp
  · intro h
    rw [psf_state_eq, h]
  · intro s hs h1
    rw [psf_state_eq, hs]
    by_cases hcond : (!tst && cnd) = true
    · rw [hcond]
      simp [h1, update_normalizing_values_opt]
    · rw [Bool.not_eq_true] at hcond
      rw [hcond]
      simp
  · intro s hs htst hcnd
    rw [psf_state_eq, hs, htst, hcnd]
    simp

/-- Witness for C2 (amended): with `is_test = true` on the concrete labelled
scenario, the state is unchanged. -/
theorem C2_accumulator_frame_amended_witness :
    (process_single_file exLabels exDa 0 1 false false true true false 0 st0).2 = st0 :=
  (C2_accumulator_frame_amended exLabels exDa 0 1 false false true true false 0 st0).1
    (Or.inl rfl)

/-- C6: when several rows of the label table fall inside the tile's bounding
box, only the first matching row (in label-table order) is used: the returned
instance's `label_lat`, `label_lon` and `crop_label` come from the head of
the overlap. -/
theorem C6_first_match_only :
    ∀ (labels : List LabelRow) (da : DataArray) (nf cap : ℚ)
      (v w cnd tst ret : Bool) (napl : ℕ) (st : EngineerState)
      (inst : PVKenyaDataInstance),
      (process_single_file labels da nf cap v w cnd tst ret napl st).1.1 = some inst →
      ∃ r0, (overlap_rows labels da).head? = some r0 ∧
        inst.label_lat = r0.lat ∧ inst.label_lon = r0.lon ∧
        r0.crop_type = some inst.crop_label := by
  intro labels da nf cap v w cnd tst ret napl st inst h
  rw [psf_instance_eq] at h
  cases hstep : labelled_step labels da nf cap v w with
  | none => rw [hstep] at h; simp at h
  | some s =>
    rw [hstep] at h
    obtain ⟨r0, ct, h1, h2, rfl⟩ := labelled_step_inv hstep
    have h3 : (crop_branch labels da nf cap v w r0 ct).2.2 = some inst := h
    cases hmax : maxed_nan_to_num (labelled_np_of da v w r0) nf (some cap) with
    | none =>
      rw [crop_branch_inst_none hmax] at h3
      simp at h3
    | some la =>
      rw [crop_branch_inst_some hmax] at h3
      cases Option.some_injective _ h3
      exact ⟨r0, h1, rfl, rfl, h2⟩

/-- Witness for C6: on the concrete one-pixel scenario the produced instance
takes its fields from the head of the overlap. -/
theorem C6_first_match_only_witness :
    ∃ r0, (overlap_rows exLabels exDa).head? = some r0 ∧
      exInst.label_lat = r0.lat ∧ exInst.label_lon = r0.lon ∧
      r0.crop_type = some exInst.crop_label :=
  C6_first_match_only exLabels exDa 0 1 false false false false false 0 st0 exInst
    (by with_unfolding_all decide)

/-- C9: for a tile whose bounding box contains the label table's single label
point with `crop_type = "maize"`, with no NaN reflectance values (and at
least the four bands the index derivation reads) anywhere in the tile,
`add_ndvi = true`, `calculate_normalizing_dict = true`, `is_test = false` and
a nonnegative NaN cap, `process_single_file` returns a DataInstance whose
`crop_label` is `"maize"` and `crop_int` is 0, the labelled and surrounding
arrays are both present, and the labelled accumulator's sample count is
incremented by exactly 1. -/
theorem C9_end_to_end :
    ∀ (r : LabelRow) (da : DataArray) (nf cap : ℚ) (w ret : Bool) (napl : ℕ)
      (st : EngineerState),
      in_bbox da r = true →
      r.crop_type = some "maize" →
      (∀ i j, Valid4 (da.pixel i j)) →
      0 ≤ cap →
      ∃ inst s,
        (process_single_file [r] da nf cap true w true false ret napl st).1.1 = some inst ∧
        inst.crop_label = "maize" ∧
        inst.crop_int = 0 ∧
        labelled_step [r] da nf cap true w = some s ∧
        s.1.isSome = true ∧ s.2.1.isSome = true ∧
        ((process_single_file [r] da nf cap true w true false ret napl st).2).normalizing_dict_interim.n
          = st.normalizing_dict_interim.n + 1 := by
  intro r da nf cap w ret napl st hin hcrop hpix hcap
  have hov : overlap_rows [r] da = [r] := by
    simp [overlap_rows, hin]
  have hh : (overlap_rows [r] da).head? = some r := by rw [hov]; rfl
  have hstep := labelled_step_some nf cap true w hh hcrop
  have hv0 : Valid4 (da.pixel (find_nearest da.x r.lon).2 (find_nearest da.y r.lat).2) :=
    hpix _ _
  have hvL : Valid4 (labelled_np_of da true w r) := by
    cases w with
    | false => simpa [labelled_np_of] using valid4_calculate_ndvi hv0
    | true => simpa [labelled_np_of] using valid4_calculate_ndwi (valid4_calculate_ndvi hv0)
  have hmax : maxed_nan_to_num (labelled_np_of da true w r) nf (some cap) =
      some (nan_to_num (labelled_np_of da true w r) nf) :=
    maxed_accept_of_noNaN nf (fun row hr => (hvL row hr).2) hcap
  have hclass : classes_to_index [r] = [("maize", 0)] := by
    simp [classes_to_index, uniqueFS, uniqueAux, enumFrom, hcrop]
  have hint : ((classes_to_index [r]).lookup "maize").getD 0 = 0 := by
    rw [hclass]; rfl
  have hI : (process_single_file [r] da nf cap true w true false ret napl st).1.1 =
      (crop_branch [r] da nf cap true w r "maize").2.2 := by
    rw [psf_instance_eq, hstep]
  rw [crop_branch_inst_some hmax] at hI
  have hS : (process_single_file [r] da nf cap true w true false ret napl st).2 =
      { normalizing_dict_interim :=
          update_normalizing_values_opt st.normalizing_dict_interim
            (crop_branch [r] da nf cap true w r "maize").1
        surrounding_normalizing_dict_interim :=
          update_normalizing_values_opt st.surrounding_normalizing_dict_interim
            (crop_branch [r] da nf cap true w r "maize").2.1 } := by
    rw [psf_state_eq, hstep]
    rfl
  have hSt : ((process_single_file [r] da nf cap true w true false ret napl st).2).normalizing_dict_interim.n
      = st.normalizing_dict_interim.n + 1 := by
    rw [hS]
    show (update_normalizing_values_opt st.normalizing_dict_interim
      (crop_branch [r] da nf cap true w r "maize").1).n = st.normalizing_dict_interim.n + 1
    rw [crop_branch_fst, hmax]
    exact update_normalizing_values_n _ _
  refine ⟨_, crop_branch [r] da nf cap true w r "maize", hI, rfl, hint, hstep, ?_, ?_, hSt⟩
  · rw [crop_branch_fst, hmax]
    rfl
  · rw [crop_branch_surrounding]
    rfl

/-- Witness for C9: the end-to-end scenario on a concrete 1×1 four-band tile
with a single maize label. -/
theorem C9_end_to_end_witness :
    ∃ inst s,
      (process_single_file [⟨0, 0, some "maize"⟩] exDa4 0 1 true false true false false 0 st0).1.1
          = some inst ∧
      inst.crop_label = "maize" ∧
      inst.crop_int = 0 ∧
      labelled_step [⟨0, 0, some "maize"⟩] exDa4 0 1 true false = some s ∧
      s.1.isSome = true ∧ s.2.1.isSome = true ∧
      ((process_single_file [⟨0, 0, some "maize"⟩] exDa4 0 1 true false true false false 0 st0).2).normalizing_dict_interim.n
        = st0.normalizing_dict_interim.n + 1 :=
  C9_end_to_end ⟨0, 0, some "maize"⟩ exDa4 0 1 false false 0 st0
    (by with_unfolding_all decide) rfl
    (fun i j => by
      show Valid4 [[some 1, some 2, some 3, some 4]]
      with_unfolding_all decide)
    (by with_unfolding_all decide)

end PVKenya
